import Mathlib

/-!
Verification development for the "heart monitor" repository.

The repository contains several variant implementations of the same
Discord heart-count monitor.  The components embedded here are:

* the label parser `safeParseIntFromLabel` (src/monitor.js lines 45-61,
  src/unnamed/part_002 lines 48-64 — the two copies are identical) and
  the variant label parser `parseHeartLabel` (src/unnamed/part_001
  lines 70-74);
* the observation extractor `extractHeartsFromMessage`
  (src/monitor.js lines 63-82, src/unnamed/part_002 lines 66-87) and
  the variant extractor `extractHearts` (src/unnamed/part_000
  lines 48-57);
* the timestamp-marker threshold evaluator `processHeartsFound` of
  src/unnamed/part_002 lines 113-161, together with its periodic sweep
  (src/unnamed/part_002 lines 244-251) and the rate-limited `sendNtfy`
  (src/unnamed/part_002 lines 90-110);
* the two-map per-tier evaluator `processHeartsFound` of
  src/monitor.js lines 345-381 (= src/unnamed/part_000 lines 216-252);
* the single-map ">150" evaluator `processHeartsFound` of
  src/monitor.js lines 111-138.

JavaScript numbers are modelled with exact integer/rational arithmetic
(`Int`/`ℚ`); all inputs exercised by the theorems below are exactly
representable in IEEE double precision, so the model and the JS engine
agree on them.  JS `Map`s are modelled as insertion-ordered association
lists (`List (α × β)`) with unique keys, which is exactly a JS `Map`'s
observable behaviour.
-/

namespace HeartMonitor

/-! ## Label parser (`safeParseIntFromLabel`) -/

/-- Characters kept by the source's `replace(/[^0-9kKmM.]/g, "")`. -/
def isKeptChar (c : Char) : Bool :=
  c.isDigit || c = 'k' || c = 'K' || c = 'm' || c = 'M' || c = '.'

/-- `toLowerCase` restricted to the kept alphabet. -/
def lowerKM (c : Char) : Char :=
  if c = 'K' then 'k' else if c = 'M' then 'm' else c

/-- `String(label).replace(/[^0-9kKmM.]/g, "").trim().toLowerCase()`
(the `trim` is a no-op because no whitespace survives the replace). -/
def cleanLabel (label : String) : String :=
  String.mk ((label.data.filter isKeptChar).map lowerKM)

/-- Numeric value of a digit string. -/
def digitsToNat (ds : List Char) : Nat :=
  ds.foldl (fun a c => a * 10 + (c.toNat - 48)) 0

/-- An exact nonnegative decimal number `num / 10 ^ exp`, the value
`parseFloat` yields on a post-strip string.  Every such input is of the
decimal form `digits[.digits]…`, so the result is exactly representable
this way; `toRat` below gives its numeric value. -/
structure DecNum where
  num : Nat
  exp : Nat
deriving DecidableEq

/-- Numeric value of a `DecNum`. -/
def DecNum.toRat (d : DecNum) : ℚ := (d.num : ℚ) / 10 ^ d.exp

/-- JS `parseFloat` on a string over the post-strip alphabet
(digits, `k`, `m`, `.` — no sign, no exponent, no whitespace survive the
strip): a leading run of digits, optionally a dot and a second digit run;
no leading digits at all (and no `.digits` form) gives `NaN` (`none`).
`digitsToNat (intPart ++ fracPart) / 10 ^ fracPart.length` is exactly
`intPart.fracPart` read as a decimal. -/
def jsParseFloat (s : List Char) : Option DecNum :=
  let intPart := s.takeWhile Char.isDigit
  let rest := s.drop intPart.length
  match rest with
  | '.' :: rest2 =>
    let fracPart := rest2.takeWhile Char.isDigit
    if intPart.isEmpty && fracPart.isEmpty then none
    else some ⟨digitsToNat (intPart ++ fracPart), fracPart.length⟩
  | _ => if intPart.isEmpty then none else some ⟨digitsToNat intPart, 0⟩

/-- JS `parseInt(s, 10)` on a post-strip string: value of the leading
digit run, `NaN` (`none`) if there is none. -/
def jsParseInt (s : List Char) : Option Int :=
  let ds := s.takeWhile Char.isDigit
  if ds.isEmpty then none else some ((digitsToNat ds : Int))

/-- JS `Math.round`: half-up rounding, `⌊x + 1/2⌋`. -/
def jsRound (q : ℚ) : Int := ⌊q + 1 / 2⌋

/-- `Math.round(d * mult)` for a nonnegative decimal `d`, computed with
natural-number floor division so that the kernel can evaluate it;
`roundMul_eq_jsRound` below proves it equal to `jsRound (d.toRat * mult)`. -/
def roundMul (d : DecNum) (mult : Nat) : Int :=
  (((2 * d.num * mult + 10 ^ d.exp) / (2 * 10 ^ d.exp) : Nat) : Int)

/-- Last character of a list (`s.endsWith("k")` for one-character
suffixes is `lastChar s.data = some 'k'`). -/
def lastChar : List Char → Option Char
  | [] => none
  | [c] => some c
  | _ :: c :: t => lastChar (c :: t)

/-- `safeParseIntFromLabel` (src/monitor.js lines 45-61).  `none` models
both a `null`/`undefined` argument and a `NaN` result; the JS guard
`if (!label) return NaN` also catches the empty string (falsy). -/
def safeParseIntFromLabel (label : Option String) : Option Int :=
  match label with
  | none => none
  | some l =>
    if l = "" then none
    else
      let s := cleanLabel l
      if s = "" then none
      else if lastChar s.data = some 'k' then
        (jsParseFloat s.data.dropLast).map (fun d => roundMul d 1000)
      else if lastChar s.data = some 'm' then
        (jsParseFloat s.data.dropLast).map (fun d => roundMul d 1000000)
      else jsParseInt s.data

/-- Faithfulness of the executable rounding: `roundMul d mult` is exactly
`Math.round`, i.e. `⌊d * mult + 1/2⌋`, of the decimal's value. -/
theorem roundMul_eq_jsRound (d : DecNum) (mult : Nat) :
    roundMul d mult = jsRound (d.toRat * mult) := by
  have he : ((10 : ℚ) ^ d.exp) ≠ 0 := by positivity
  have harg : d.toRat * mult + 1 / 2
      = ((2 * d.num * mult + 10 ^ d.exp : ℕ) : ℚ) / ((2 * 10 ^ d.exp : ℕ) : ℚ) := by
    field_simp [DecNum.toRat]
    ring
  have hfl : jsRound (d.toRat * mult)
      = ((2 * d.num * mult + 10 ^ d.exp : ℕ) : ℤ) / ((2 * 10 ^ d.exp : ℕ) : ℤ) := by
    rw [jsRound, harg]
    rw [show (((2 * d.num * mult + 10 ^ d.exp : ℕ) : ℚ))
        = (((2 * d.num * mult + 10 ^ d.exp : ℕ) : ℤ) : ℚ) by push_cast; ring]
    exact Rat.floor_intCast_div_natCast _ _
  rw [hfl, roundMul]
  exact (Int.natCast_div _ _).symm

/-! ## Variant label parser (`parseHeartLabel`,
src/unnamed/part_001 lines 70-74; also monitor.js lines 525-533) -/

deriving instance DecidableEq for Except

/-- JS `String.prototype.trim`: strip whitespace from both ends. -/
def jsTrim (s : List Char) : List Char :=
  ((s.dropWhile Char.isWhitespace).reverse.dropWhile Char.isWhitespace).reverse

/-- `val.replace("k", "")`: remove the *first* occurrence of `k`. -/
def removeFirstK : List Char → List Char
  | [] => []
  | c :: t => if c = 'k' then t else c :: removeFirstK t

/-- `parseHeartLabel(label)` (src/unnamed/part_001 lines 70-74):
`label.toLowerCase().trim()`, then a `k` suffix goes through
`Math.round(parseFloat(val.replace("k", "")) * 1000)` and everything
else through `parseInt(val, 10)`.  There is no `m` branch, no emoji
strip, and no null guard: a `null`/`undefined` label makes
`label.toLowerCase()` throw an uncaught TypeError, modelled as
`Except.error ()`; `Except.ok none` is a `NaN` result.  ASCII lowering
(`Char.toLower`) and the sign-free `jsParseInt`/`jsParseFloat` of this
file coincide with JS on every label exercised below (none contains a
sign or a non-ASCII cased letter). -/
def parseHeartLabel (label : Option String) : Except Unit (Option Int) :=
  match label with
  | none => Except.error ()
  | some l =>
    let val := jsTrim (l.data.map Char.toLower)
    if lastChar val = some 'k' then
      Except.ok ((jsParseFloat (removeFirstK val)).map (fun d => roundMul d 1000))
    else
      Except.ok (jsParseInt val)

/-! ## Observation extractor (`extractHeartsFromMessage`) -/

/-- One button inside a message row: `emoji` models `comp.emoji?.name`
(`none` = no emoji object), `label` models `comp.label`
(`none` = absent). -/
structure MsgComponent where
  emoji : Option String
  label : Option String

/-- One action row; `components` is `none` when the row carries no
`components` field (`if (!row?.components) continue`). -/
structure MsgRow where
  components : Option (List MsgComponent)

/-- A message; `components` is `none` when the field is absent
(`msg.components || []`). -/
structure Message where
  components : Option (List MsgRow)

/-- The two-code-point heart emoji `U+2764 U+FE0F` used by the source. -/
def heartMark : String := "❤️"

/-- `pat` occurs at the start of `l`. -/
def startsWithSeq : List Char → List Char → Bool
  | _, [] => true
  | [], _ :: _ => false
  | c :: l, d :: m => c = d && startsWithSeq l m

/-- `pat` occurs somewhere in `l` (JS `String.prototype.includes`). -/
def containsSeq : List Char → List Char → Bool
  | [], pat => startsWithSeq [] pat
  | c :: t, pat => startsWithSeq (c :: t) pat || containsSeq t pat

/-- `comp.emoji && String(comp.emoji.name).includes("❤️")`. -/
def hasHeartEmoji (c : MsgComponent) : Bool :=
  match c.emoji with
  | some name => containsSeq name.data heartMark.data
  | none => false

/-- `comp.label && /[0-9]/.test(comp.label)` (an absent or empty label is
falsy). -/
def looksNumeric (c : MsgComponent) : Bool :=
  match c.label with
  | some l => !(l = "" : Bool) && l.data.any Char.isDigit
  | none => false

/-- Inner loop of `extractHeartsFromMessage`: walk the components of one
row, pushing each successfully parsed candidate label. -/
def extractFromComponents (comps : List MsgComponent) (values : List Int) : List Int :=
  comps.foldl
    (fun vs comp =>
      if hasHeartEmoji comp || looksNumeric comp then
        match safeParseIntFromLabel comp.label with
        | some val => vs ++ [val]
        | none => vs
      else vs)
    values

/-- `extractHeartsFromMessage` (src/monitor.js lines 63-82): nested loop
over rows and components; rows without a `components` field are skipped;
the surrounding `try`/`catch` never fires because every step here is
total. -/
def extractHeartsFromMessage (msg : Message) : List Int :=
  (msg.components.getD []).foldl
    (fun vs row => extractFromComponents (row.components.getD []) vs) []

/-- Specification-side description of the candidates: all components of
all rows that carry the heart emoji or a digit-bearing label. -/
def candidateComponents (msg : Message) : List MsgComponent :=
  (((msg.components.getD []).map (fun row => row.components.getD [])).flatten).filter
    (fun c => hasHeartEmoji c || looksNumeric c)

/-! ## Variant extractor (`extractHearts`, src/unnamed/part_000
lines 48-57) -/

/-- `parseInt(btn.label, 10)` of a button: an absent label is coerced to
the string `"undefined"`, which parses to `NaN` (`none`). -/
def jsParseIntOfLabel (btn : MsgComponent) : Option Int :=
  match btn.label with
  | some l => jsParseInt l.data
  | none => none

/-- The components of the *first* row (`msg.components[0]`), the only
row `extractHearts` looks at; absent at either level gives `[]`. -/
def firstRowComponents (msg : Message) : List MsgComponent :=
  match msg.components with
  | none => []
  | some [] => []
  | some (row :: _) => row.components.getD []

/-- `extractHearts(msg)` (src/unnamed/part_000 lines 48-57):
`if (!msg.components?.length) return []` (an absent or empty `components`
array is falsy), take `msg.components[0]`, keep the buttons whose emoji
name is exactly `"❤️"` (`btn.emoji?.name === "❤️"`), and map
`parseInt(btn.label, 10)` over them — with *no* `isNaN` filter, so a
`NaN` (`none`) entry stays in the returned array. -/
def extractHearts (msg : Message) : List (Option Int) :=
  match msg.components with
  | none => []
  | some [] => []
  | some (row :: _) =>
    match row.components with
    | none => []
    | some comps =>
      (comps.filter (fun btn => decide (btn.emoji = some heartMark))).map jsParseIntOfLabel

/-! ## JS `Map` model

A JS `Map` is an insertion-ordered collection of key/value pairs with
unique keys; we model it as `List (α × β)`, head = oldest insertion.
`mapGet` is `Map.get` (first — only — entry with the key), `mapSet` is
`Map.set` (overwrite in place keeping the insertion position, else
append), and deleting `map.keys().next().value` is `List.tail`. -/

variable {α : Type} [DecidableEq α]

/-- `Map.get`: value stored at `k`, `none` = `undefined`. -/
def mapGet {β : Type} (store : List (α × β)) (k : α) : Option β :=
  (store.find? (fun p => decide (p.1 = k))).map Prod.snd

/-- `Map.set`: replace in place if the key is present (insertion
position is kept), otherwise append at the end. -/
def mapSet {β : Type} : List (α × β) → α → β → List (α × β)
  | [], k, v => [(k, v)]
  | p :: t, k, v => if p.1 = k then (k, v) :: t else p :: mapSet t k v

/-- Keys of the store in insertion order. -/
def keysOf {β : Type} (store : List (α × β)) : List α := store.map Prod.fst

/-- `if (m.size > cap) m.delete(m.keys().next().value)`: drop the
oldest-inserted entry when the size exceeds `cap`. -/
def capDelete {β : Type} (cap : Nat) (store : List (α × β)) : List (α × β) :=
  if cap < store.length then store.tail else store

/-! ## Timestamp-marker evaluator (src/unnamed/part_002 lines 113-161) -/

/-- The two configured alert tiers (PRIMARY and SECONDARY audiences). -/
inductive Tier
  | primary
  | secondary
deriving DecidableEq

/-- Per-message alert state of the timestamp variant:
`{ primaryAt, secondaryAt, lastValue }` with `0` = never fired and
`lastValue = none` modelling the initial `null`. -/
structure AlertSt where
  primaryAt : Int
  secondaryAt : Int
  lastValue : Option Int
deriving DecidableEq

/-- The fresh state `{ primaryAt: 0, secondaryAt: 0, lastValue: null }`. -/
def defaultAlertSt : AlertSt := ⟨0, 0, none⟩

/-- One attempted notification dispatch: which tier (hence which ntfy
topic), the reported value, and whether the `axios.post` succeeded.  The
outcome is recorded but — exactly as in the source, whose `sendNtfy`
catches every delivery error — consumed by nothing. -/
structure SendRec where
  tier : Tier
  value : Int
  ok : Bool
deriving DecidableEq

/-- `maxValue > 599 && !state.primaryAt` (`0` is falsy). -/
def firesPrimary (maxValue : Int) (st : AlertSt) : Bool :=
  decide (599 < maxValue) && decide (st.primaryAt = 0)

/-- `maxValue > 100 && maxValue < 600 && !state.secondaryAt`. -/
def firesSecondary (maxValue : Int) (st : AlertSt) : Bool :=
  (decide (100 < maxValue) && decide (maxValue < 600)) && decide (st.secondaryAt = 0)

/-- The state mutations of one `processHeartsFound` call past the
equal-value early exit: stamp each firing tier with `now`, then
`state.lastValue = maxValue`. -/
def updMarkers (now maxValue : Int) (st : AlertSt) : AlertSt :=
  { primaryAt := if firesPrimary maxValue st then now else st.primaryAt
    secondaryAt := if firesSecondary maxValue st then now else st.secondaryAt
    lastValue := some maxValue }

/-- The dispatches of one call: one `sendNtfy` per firing tier, primary
first; `ok` is the delivery outcome (an external-world input). -/
def sendsFor (ok : Tier → Bool) (maxValue : Int) (st : AlertSt) : List SendRec :=
  (if firesPrimary maxValue st then [⟨Tier.primary, maxValue, ok Tier.primary⟩] else [])
    ++ (if firesSecondary maxValue st then [⟨Tier.secondary, maxValue, ok Tier.secondary⟩] else [])

/-- `alertedState.size > 300` capacity bound of the timestamp variant. -/
def ALERT_CAP : Nat := 300

/-- `processHeartsFound(maxValue, messageId)` of src/unnamed/part_002
lines 113-161: read (or default) the state; if `state.lastValue ===
maxValue`, return with no mutation and no dispatch; otherwise fire each
matching tier whose timestamp is still `0` (dispatching via `sendNtfy`,
whose outcome `ok` is caught internally and affects nothing), stamp it
with `now`, store `lastValue = maxValue`, write the state back and evict
the oldest entry if the map outgrew `ALERT_CAP`.  Returns the new store
and the dispatch attempts. -/
def processHeartsFound (ok : Tier → Bool) (now maxValue : Int) (messageId : α)
    (store : List (α × AlertSt)) : List (α × AlertSt) × List SendRec :=
  let st := (mapGet store messageId).getD defaultAlertSt
  if st.lastValue = some maxValue then (store, [])
  else
    (capDelete ALERT_CAP (mapSet store messageId (updMarkers now maxValue st)),
     sendsFor ok maxValue st)

/-- A trace of `processHeartsFound` calls, each `(now, maxValue,
messageId)`; returns the final store and every dispatch event tagged
with the message id it fired for. -/
def runHF (ok : Tier → Bool) :
    List (Int × Int × α) → List (α × AlertSt) → List (α × AlertSt) × List (α × Tier)
  | [], store => (store, [])
  | (now, v, id) :: rest, store =>
    let r := processHeartsFound ok now v id store
    let rr := runHF ok rest r.1
    (rr.1, r.2.map (fun s => (id, s.tier)) ++ rr.2)

/-- The firing-marker field of a state for a given tier. -/
def markerOf (t : Tier) (st : AlertSt) : Int :=
  match t with
  | Tier.primary => st.primaryAt
  | Tier.secondary => st.secondaryAt

/-- `t` has already fired for `id`: the stored timestamp is non-zero. -/
def firedB (t : Tier) (store : List (α × AlertSt)) (id : α) : Bool :=
  match mapGet store id with
  | some st => decide (¬ markerOf t st = 0)
  | none => false

/-- The periodic sweep of src/unnamed/part_002 lines 244-251: delete
every entry whose most recent firing timestamp is more than 15 minutes
old (`now - Math.max(primaryAt, secondaryAt) > 15 * 60_000`). -/
def sweepStates (now : Int) (store : List (α × AlertSt)) : List (α × AlertSt) :=
  store.filter (fun p => !decide (15 * 60000 < now - max p.2.primaryAt p.2.secondaryAt))

/-! ## Two-map per-tier evaluator (src/monitor.js lines 345-381,
src/unnamed/part_000 lines 216-252) -/

/-- The two suppression maps of the two-audience variant, each
message-id ↦ last alerted value. -/
structure TwoMapSt (α : Type) where
  alertedMessages : List (α × Int)
  alertedMessagesSecond : List (α × Int)
deriving DecidableEq

/-- `alertedMessages.size > 200` capacity bound of the two-map variant. -/
def TWOMAP_CAP : Nat := 200

/-- `processHeartsFound(maxValue, messageId)` of src/monitor.js lines
345-381: for each tier independently, if the value is in band and
differs from that tier's stored value for this message (`prev !==
maxValue`, with `undefined !== v` for unseen ids), alert, store the
value and evict past capacity. -/
def processHeartsFoundTwoMap (maxValue : Int) (messageId : α) (s : TwoMapSt α) :
    TwoMapSt α × List Tier :=
  let (prim, sendsP) :=
    if 300 < maxValue then
      if mapGet s.alertedMessages messageId = some maxValue then
        (s.alertedMessages, ([] : List Tier))
      else
        (capDelete TWOMAP_CAP (mapSet s.alertedMessages messageId maxValue), [Tier.primary])
    else (s.alertedMessages, [])
  let (sec, sendsS) :=
    if 100 < maxValue ∧ maxValue < 600 then
      if mapGet s.alertedMessagesSecond messageId = some maxValue then
        (s.alertedMessagesSecond, ([] : List Tier))
      else
        (capDelete TWOMAP_CAP (mapSet s.alertedMessagesSecond messageId maxValue), [Tier.secondary])
    else (s.alertedMessagesSecond, [])
  (⟨prim, sec⟩, sendsP ++ sendsS)

/-! ## Single-map `>150` evaluator (src/monitor.js lines 111-138) -/

/-- `processHeartsFound(maxValue, messageId)` of src/monitor.js lines
111-138: values `≤ 150` are ignored; a repeat of the exact stored value
(`previous && previous === maxValue`, truthiness included) is
suppressed; otherwise alert, store, and evict past 200 entries.  Returns
the new store and the values alerted (one per dispatch). -/
def processHeartsFoundV1 (maxValue : Int) (messageId : α)
    (store : List (α × Int)) : List (α × Int) × List Int :=
  if maxValue ≤ 150 then (store, [])
  else
    let suppressed :=
      match mapGet store messageId with
      | some previous => decide (¬ previous = 0) && decide (previous = maxValue)
      | none => false
    if suppressed then (store, [])
    else
      (capDelete 200 (mapSet store messageId maxValue), [maxValue])

/-! ## Rate-limited dispatcher timing (src/unnamed/part_002 lines 28-34,
90-110)

`sendNtfy` keeps one global `lastNtfySendAt`; on entry it computes
`delta = Date.now() - lastNtfySendAt` and sleeps `NTFY_MIN_GAP_MS -
delta` if `delta < NTFY_MIN_GAP_MS`, then performs the post and finally
(on success or in the `catch`) sets `lastNtfySendAt = Date.now()`, i.e.
to the post's completion time.  Time is a logical millisecond clock. -/

/-- `const NTFY_MIN_GAP_MS = 1500`. -/
def NTFY_MIN_GAP_MS : Int := 1500

/-- Observable timing of one dispatch: when its post started and when it
completed. -/
structure SendTiming where
  startAt : Int
  endAt : Int
deriving DecidableEq

/-- Time at which the `axios.post` of a `sendNtfy` call starts, given the
`lastNtfySendAt` the call reads and the time `now` at which it runs its
gap check: after the conditional sleep of `NTFY_MIN_GAP_MS - delta`. -/
def sendStartTime (lastNtfySendAt now : Int) : Int :=
  if now - lastNtfySendAt < NTFY_MIN_GAP_MS then lastNtfySendAt + NTFY_MIN_GAP_MS else now

/-- One complete sequentially-executed `sendNtfy` call: the call runs its
gap check at `now` against the stored `lastNtfySendAt`, the post takes
`dur ≥ 0` ms; returns the updated `lastNtfySendAt` (the completion time,
set on the success and failure paths alike) and the timing. -/
def sendNtfySeq (lastNtfySendAt now dur : Int) : Int × SendTiming :=
  let s := sendStartTime lastNtfySendAt now
  (s + dur, ⟨s, s + dur⟩)

/-- Two overlapping `sendNtfy` calls, as produced when the gateway
handler and the polling loop fire near-simultaneously: call A runs its
gap check at `nowA` and starts its post (suspending at the `await`);
call B runs its gap check at `nowB` while A's post is still pending
(`nowA ≤ nowB ≤` A's completion), so it reads the *unchanged*
`lastNtfySendAt = last0` — A only writes it after its post resolves.
Both timings follow. -/
def sendNtfyOverlapped (last0 nowA durA nowB durB : Int) : SendTiming × SendTiming :=
  let aS := sendStartTime last0 nowA
  let bS := sendStartTime last0 nowB
  (⟨aS, aS + durA⟩, ⟨bS, bS + durB⟩)

/-! ## `Map` model lemmas -/

theorem mapGet_nil {β : Type} (k : α) : mapGet ([] : List (α × β)) k = none := rfl

theorem mapGet_cons {β : Type} (p : α × β) (t : List (α × β)) (k : α) :
    mapGet (p :: t) k = if p.1 = k then some p.2 else mapGet t k := by
  by_cases h : p.1 = k <;> simp [mapGet, List.find?, h]

theorem mapGet_mapSet_self {β : Type} (store : List (α × β)) (k : α) (v : β) :
    mapGet (mapSet store k v) k = some v := by
  induction store with
  | nil => simp [mapSet, mapGet_cons]
  | cons p t ih =>
    by_cases h : p.1 = k
    · simp [mapSet, h, mapGet_cons]
    · simp [mapSet, h, mapGet_cons, ih]

theorem mapGet_mapSet_ne {β : Type} (store : List (α × β)) (k k' : α) (v : β)
    (h : k' ≠ k) : mapGet (mapSet store k v) k' = mapGet store k' := by
  induction store with
  | nil => simp [mapSet, mapGet_cons, mapGet_nil, Ne.symm h]
  | cons p t ih =>
    by_cases hp : p.1 = k
    · simp [mapSet, hp, mapGet_cons, Ne.symm h, hp ▸ Ne.symm h]
    · simp [mapSet, hp, mapGet_cons, ih]

theorem mapGet_eq_none_iff {β : Type} (store : List (α × β)) (k : α) :
    mapGet store k = none ↔ k ∉ keysOf store := by
  induction store with
  | nil => simp [mapGet_nil, keysOf]
  | cons p t ih =>
    rw [mapGet_cons]
    by_cases h : p.1 = k
    · rw [if_pos h]
      simp [keysOf, h]
    · rw [if_neg h, ih]
      have h2 : ¬ k = p.1 := fun he => h he.symm
      simp [keysOf, h2]

theorem mapSet_of_none {β : Type} {store : List (α × β)} {k : α} (v : β)
    (h : mapGet store k = none) : mapSet store k v = store ++ [(k, v)] := by
  induction store with
  | nil => simp [mapSet]
  | cons p t ih =>
    rw [mapGet_cons] at h
    by_cases hp : p.1 = k
    · simp [hp] at h
    · simp [hp] at h
      simp [mapSet, hp, ih h]

theorem length_mapSet_of_isSome {β : Type} {store : List (α × β)} {k : α} (v : β)
    (h : (mapGet store k).isSome) : (mapSet store k v).length = store.length := by
  induction store with
  | nil => simp [mapGet_nil] at h
  | cons p t ih =>
    rw [mapGet_cons] at h
    by_cases hp : p.1 = k
    · simp [mapSet, hp]
    · simp [hp] at h
      simp [mapSet, hp, ih h]

theorem keysOf_mapSet_of_isSome {β : Type} {store : List (α × β)} {k : α} (v : β)
    (h : (mapGet store k).isSome) : keysOf (mapSet store k v) = keysOf store := by
  induction store with
  | nil => simp [mapGet_nil] at h
  | cons p t ih =>
    rw [mapGet_cons] at h
    by_cases hp : p.1 = k
    · simp [mapSet, hp, keysOf]
    · simp [hp] at h
      simp [mapSet, hp, keysOf] at ih ⊢
      exact ih h

theorem mapGet_append_of_none {β : Type} {l : List (α × β)} {k : α}
    (l2 : List (α × β)) (h : mapGet l k = none) :
    mapGet (l ++ l2) k = mapGet l2 k := by
  induction l with
  | nil => simp
  | cons p t ih =>
    rw [mapGet_cons] at h
    by_cases hp : p.1 = k
    · simp [hp] at h
    · simp [hp] at h
      simp [mapGet_cons, hp, ih h]

theorem mapGet_tail_of_mem {β : Type} {l : List (α × β)} {k : α}
    (hn : (keysOf l).Nodup) (hk : k ∈ keysOf l.tail) :
    mapGet l.tail k = mapGet l k := by
  cases l with
  | nil => simp [keysOf] at hk
  | cons p t =>
    simp only [keysOf, List.map_cons, List.nodup_cons] at hn
    have hp : p.1 ≠ k := by
      intro he
      exact hn.1 (he ▸ hk)
    simp [mapGet_cons, hp]

/-! ## Claim C5: label-parser reference vectors -/

/-- **C5 counterexample** on the equally-cited `parseHeartLabel`
(src/unnamed/part_001 lines 70-74): it yields 2 for `"2m"` (no `m`
branch), `NaN` for `"❤️42"` (no emoji strip before `parseInt`), and
throws a TypeError on `null` instead of returning `NaN` — three of the
claimed vectors fail on that parser, so the claim does not hold of the
repository's Label Parser as a whole. -/
theorem parser_vectors_cex :
    ¬ (parseHeartLabel (some "2m") = Except.ok (some 2000000)
      ∧ parseHeartLabel (some "❤️42") = Except.ok (some 42)
      ∧ parseHeartLabel none = Except.ok none) := by
  decide

/-- **C5** (amended): `safeParseIntFromLabel` (src/monitor.js lines
45-61 = src/unnamed/part_002 lines 48-64) satisfies every reference
vector — `150`, `1500`, `2000000`, `42`, and `NaN` for `""`, `null` and
`"abc"`, never raising (the embedded function is total).  The variant
`parseHeartLabel` (src/unnamed/part_001 lines 70-74) agrees only on
`"150"`, `"1.5k"`, `""` and `"abc"`: it yields `2` for `"2m"`, `NaN`
for `"❤️42"`, and throws an uncaught TypeError on `null`. -/
theorem parser_reference_vectors :
    (safeParseIntFromLabel (some "150") = some 150
      ∧ safeParseIntFromLabel (some "1.5k") = some 1500
      ∧ safeParseIntFromLabel (some "2m") = some 2000000
      ∧ safeParseIntFromLabel (some "❤️42") = some 42
      ∧ safeParseIntFromLabel (some "") = none
      ∧ safeParseIntFromLabel none = none
      ∧ safeParseIntFromLabel (some "abc") = none)
    ∧ (parseHeartLabel (some "150") = Except.ok (some 150)
      ∧ parseHeartLabel (some "1.5k") = Except.ok (some 1500)
      ∧ parseHeartLabel (some "") = Except.ok none
      ∧ parseHeartLabel (some "abc") = Except.ok none)
    ∧ (parseHeartLabel (some "2m") = Except.ok (some 2)
      ∧ parseHeartLabel (some "❤️42") = Except.ok none
      ∧ parseHeartLabel none = Except.error ()) := by
  exact ⟨⟨by decide, by decide, by decide, by decide, by decide, rfl, by decide⟩,
    ⟨by decide, by decide, by decide, by decide⟩,
    ⟨by decide, by decide, rfl⟩⟩

/-! ## Claim C10: the parser never yields a negative value -/

theorem jsParseInt_nonneg {s : List Char} {n : Int} (h : jsParseInt s = some n) :
    0 ≤ n := by
  rw [jsParseInt] at h
  split at h
  · exact absurd h (by simp)
  · rw [Option.some_inj] at h
    rw [← h]
    exact Int.natCast_nonneg _

/-- **C10**: every successful parse is a nonnegative integer — the strip
step removes any minus sign before numeric parsing, so the
`value : integer ≥ 0` constraint of the data model holds. -/
theorem parser_nonneg (label : Option String) (n : Int)
    (h : safeParseIntFromLabel label = some n) : 0 ≤ n := by
  match label with
  | none => exact absurd h (by simp [safeParseIntFromLabel])
  | some l =>
    simp only [safeParseIntFromLabel] at h
    split at h
    · exact absurd h (by simp)
    · split at h
      · exact absurd h (by simp)
      · split at h
        · obtain ⟨d, _, hn⟩ := Option.map_eq_some'.mp h
          rw [← hn, roundMul]
          exact Int.natCast_nonneg _
        · split at h
          · obtain ⟨d, _, hn⟩ := Option.map_eq_some'.mp h
            rw [← hn, roundMul]
            exact Int.natCast_nonneg _
          · exact jsParseInt_nonneg h

/-- Witness for C10 at the concrete label `"42"`. -/
theorem parser_nonneg_witness :
    safeParseIntFromLabel (some "42") = some 42 ∧ (0 : Int) ≤ 42 :=
  ⟨by decide, parser_nonneg (some "42") 42 (by decide)⟩

/-! ## Claim C6: extractor output purity -/

theorem extractFromComponents_eq (comps : List MsgComponent) (vs : List Int) :
    extractFromComponents comps vs
      = vs ++ (comps.filter (fun c => hasHeartEmoji c || looksNumeric c)).filterMap
          (fun c => safeParseIntFromLabel c.label) := by
  induction comps generalizing vs with
  | nil => simp [extractFromComponents]
  | cons c t ih =>
    simp only [extractFromComponents, List.foldl_cons] at ih ⊢
    by_cases hc : (hasHeartEmoji c || looksNumeric c) = true
    · cases hp : safeParseIntFromLabel c.label with
      | some val =>
        rw [ih]
        simp [hc, hp, List.filter_cons, List.filterMap_cons]
      | none =>
        rw [ih]
        simp [hc, hp, List.filter_cons, List.filterMap_cons]
    · rw [ih]
      simp [hc, List.filter_cons]

theorem extractRows_eq (rows : List MsgRow) (vs : List Int) :
    rows.foldl (fun a row => extractFromComponents (row.components.getD []) a) vs
      = vs ++ (((rows.map (fun r => r.components.getD [])).flatten).filter
          (fun c => hasHeartEmoji c || looksNumeric c)).filterMap
          (fun c => safeParseIntFromLabel c.label) := by
  induction rows generalizing vs with
  | nil => simp
  | cons r t ih =>
    rw [List.foldl_cons, ih, extractFromComponents_eq]
    simp [List.filter_append, List.filterMap_append]

/-- **C6 counterexample** on the equally-cited `extractHearts`
(src/unnamed/part_000 lines 48-57): a heart button whose label `"abc"`
does not parse contributes a `NaN` entry to the returned array — there
is no `isNaN` filter there, so NotANumber results do appear in the
output instead of being silently dropped as claimed. -/
theorem extractor_nan_in_output :
    extractHearts (⟨some [⟨some [⟨some heartMark, some "abc"⟩]⟩]⟩ : Message) = [none]
    ∧ (none : Option Int)
        ∈ extractHearts (⟨some [⟨some [⟨some heartMark, some "abc"⟩]⟩]⟩ : Message) := by
  decide

/-- **C6** (amended): `extractHeartsFromMessage` (src/monitor.js lines
63-82) returns exactly the successfully parsed values of the candidate
components — a value appears iff the label parser succeeds on the
candidate's label, `NaN` results dropped — and a message with no
`components` yields `[]`, every function involved being total.  The
variant `extractHearts` (src/unnamed/part_000 lines 48-57) instead maps
`parseInt` over the heart-emoji buttons of the first row only and keeps
`NaN` results: a `NaN` appears in its output exactly when some
first-row heart button's label fails to parse. -/
theorem extractor_purity :
    (∀ msg : Message,
        extractHeartsFromMessage msg
          = (candidateComponents msg).filterMap (fun c => safeParseIntFromLabel c.label))
    ∧ extractHeartsFromMessage ⟨none⟩ = []
    ∧ (∀ msg : Message,
        extractHearts msg
          = ((firstRowComponents msg).filter
              (fun btn => decide (btn.emoji = some heartMark))).map jsParseIntOfLabel)
    ∧ (∀ msg : Message,
        (none : Option Int) ∈ extractHearts msg
          ↔ ∃ btn ∈ (firstRowComponents msg).filter
              (fun btn => decide (btn.emoji = some heartMark)),
              jsParseIntOfLabel btn = none) := by
  have hchar : ∀ msg : Message,
      extractHearts msg
        = ((firstRowComponents msg).filter
            (fun btn => decide (btn.emoji = some heartMark))).map jsParseIntOfLabel := by
    intro msg
    match msg with
    | ⟨none⟩ => rfl
    | ⟨some []⟩ => rfl
    | ⟨some (row :: rest)⟩ =>
      match hrow : row.components with
      | none => simp [extractHearts, firstRowComponents, hrow]
      | some comps => simp [extractHearts, firstRowComponents, hrow]
  refine ⟨fun msg => ?_, rfl, hchar, fun msg => ?_⟩
  · rw [extractHeartsFromMessage, extractRows_eq, candidateComponents]
    simp
  · rw [hchar msg]
    simp [List.mem_map]

/-! ## Claim C9: the sweep deletes every never-fired entry -/

/-- **C9**: an entry whose two firing timestamps are both `0` is removed
by the sweep whenever `now` exceeds the 15-minute window (true of every
real `Date.now()`), regardless of its `lastValue` or how recently it was
created — so dedup state for never-fired messages survives at most one
sweep interval. -/
theorem sweep_deletes_never_fired (now : Int) (store : List (α × AlertSt))
    (p : α × AlertSt) (hmem : p ∈ store) (hp : p.2.primaryAt = 0)
    (hs : p.2.secondaryAt = 0) (hnow : 15 * 60000 < now) :
    p ∉ sweepStates now store := by
  intro hin
  have hkeep := (List.mem_filter.mp hin).2
  rw [hp, hs] at hkeep
  simp at hkeep
  omega

/-! ## Claim C2: equal-value dedup and idempotence -/

/-- Writing `v` under `k` and then evicting past a positive capacity the
store did not exceed before never loses the entry just written: the
evictee is the oldest entry and the written entry is newest (or the
store did not grow). -/
theorem mapGet_capDelete_mapSet {β : Type} (store : List (α × β)) (k : α) (v : β)
    {cap : Nat} (hpos : 0 < cap) (hlen : store.length ≤ cap) :
    mapGet (capDelete cap (mapSet store k v)) k = some v := by
  rw [capDelete]
  split
  · rename_i hcap
    cases hm : mapGet store k with
    | some st =>
      have hl := @length_mapSet_of_isSome _ _ _ store k v (by rw [hm]; rfl)
      omega
    | none =>
      rw [mapSet_of_none v hm] at hcap ⊢
      cases store with
      | nil =>
        simp at hcap
        omega
      | cons q t =>
        have hq := hm
        rw [mapGet_cons] at hq
        by_cases hqk : q.1 = k
        · rw [if_pos hqk] at hq
          exact absurd hq (by simp)
        · rw [if_neg hqk] at hq
          rw [List.cons_append, List.tail_cons]
          rw [mapGet_append_of_none _ hq]
          simp [mapGet_cons]
  · exact mapGet_mapSet_self store k v

/-- After any `processHeartsFound` call on a store within capacity, the
stored `lastValue` for the processed id is the processed value. -/
theorem lastValue_after (ok : Tier → Bool) (now v : Int) (id : α)
    (store : List (α × AlertSt)) (hlen : store.length ≤ ALERT_CAP) :
    ∃ st : AlertSt, mapGet (processHeartsFound ok now v id store).1 id = some st
      ∧ st.lastValue = some v := by
  rw [processHeartsFound]
  split
  · rename_i hlv
    cases hm : mapGet store id with
    | none =>
      rw [hm] at hlv
      exact absurd hlv (by simp [defaultAlertSt])
    | some st =>
      rw [hm] at hlv
      refine ⟨st, ?_, ?_⟩
      · simpa using hm
      · simpa using hlv
  · exact ⟨updMarkers now v ((mapGet store id).getD defaultAlertSt),
      mapGet_capDelete_mapSet store id _ (by norm_num [ALERT_CAP]) hlen, rfl⟩

/-- **C2**: (1) in the timestamp variant, an observation equal to the
stored `lastValue` is a complete no-op — the store is untouched and
nothing is dispatched, without any tier check; (2) repeating
`evaluate(id, v)` immediately fires nothing on the second call, for any
starting store within capacity, any `id`, `v`; (3) the same idempotence
holds for the single-map `>150` variant. -/
theorem equal_value_dedup :
    (∀ (ok : Tier → Bool) (now v : Int) (id : α) (store : List (α × AlertSt))
        (st : AlertSt), mapGet store id = some st → st.lastValue = some v →
        processHeartsFound ok now v id store = (store, []))
    ∧ (∀ (ok ok' : Tier → Bool) (now now' v : Int) (id : α)
        (store : List (α × AlertSt)), store.length ≤ ALERT_CAP →
        (processHeartsFound ok' now' v id (processHeartsFound ok now v id store).1).2 = [])
    ∧ (∀ (v : Int) (id : α) (store : List (α × Int)), store.length ≤ 200 →
        (processHeartsFoundV1 v id (processHeartsFoundV1 v id store).1).2 = []) := by
  refine ⟨?_, ?_, ?_⟩
  · intro ok now v id store st hm hlv
    simp [processHeartsFound, hm, hlv]
  · intro ok ok' now now' v id store hlen
    obtain ⟨st, hg, hl⟩ := lastValue_after ok now v id store hlen
    set store1 := (processHeartsFound ok now v id store).1 with hs1
    simp [processHeartsFound, hg, hl]
  · intro v id store hlen
    by_cases h150 : v ≤ 150
    · simp [processHeartsFoundV1, h150]
    · have hv0 : ¬ (v = 0) := by omega
      have hsecond : ∀ store2 : List (α × Int), mapGet store2 id = some v →
          (processHeartsFoundV1 v id store2).2 = [] := by
        intro store2 hm2
        simp [processHeartsFoundV1, h150, hm2, hv0]
      cases hm : mapGet store id with
      | none =>
        have h1 : processHeartsFoundV1 v id store
            = (capDelete 200 (mapSet store id v), [v]) := by
          simp [processHeartsFoundV1, h150, hm]
        rw [h1]
        exact hsecond _ (mapGet_capDelete_mapSet store id v (by norm_num) hlen)
      | some p =>
        by_cases hpv : (decide (¬ p = 0) && decide (p = v)) = true
        · have h1 : processHeartsFoundV1 v id store = (store, []) := by
            simp [processHeartsFoundV1, hm, h150, hpv]
            simpa using hpv
          rw [h1]
          show (processHeartsFoundV1 v id store).2 = []
          rw [h1]
        · have h1 : processHeartsFoundV1 v id store
              = (capDelete 200 (mapSet store id v), [v]) := by
            simp [processHeartsFoundV1, hm, h150, hpv]
            simpa using hpv
          rw [h1]
          exact hsecond _ (mapGet_capDelete_mapSet store id v (by norm_num) hlen)

/-- Witness for C2 at a concrete store, id and value. -/
theorem equal_value_dedup_witness :
    mapGet [((0 : Nat), (⟨0, 0, some 700⟩ : AlertSt))] 0 = some ⟨0, 0, some 700⟩
    ∧ (⟨0, 0, some 700⟩ : AlertSt).lastValue = some 700
    ∧ processHeartsFound (fun _ => true) 9 700 0 [((0 : Nat), (⟨0, 0, some 700⟩ : AlertSt))]
        = ([((0 : Nat), (⟨0, 0, some 700⟩ : AlertSt))], [])
    ∧ ([] : List (Nat × AlertSt)).length ≤ ALERT_CAP
    ∧ (processHeartsFound (fun _ => true) 2 700 0
        (processHeartsFound (fun _ => true) 1 700 0 ([] : List (Nat × AlertSt))).1).2 = []
    ∧ ([] : List (Nat × Int)).length ≤ 200
    ∧ (processHeartsFoundV1 700 0 (processHeartsFoundV1 700 (0 : Nat) []).1).2 = [] :=
  ⟨by decide, rfl,
    equal_value_dedup.1 (fun _ => true) 9 700 0
      [((0 : Nat), (⟨0, 0, some 700⟩ : AlertSt))] ⟨0, 0, some 700⟩ (by decide) rfl,
    by decide,
    equal_value_dedup.2.1 (fun _ => true) (fun _ => true) 1 2 700 0 [] (by decide),
    by decide,
    equal_value_dedup.2.2 700 0 [] (by decide)⟩

/-! ## Claim C7: dispatch failure does not affect evaluator state -/

/-- **C7**: for any two dispatch-outcome oracles (e.g. all-success vs
all-failure), one `processHeartsFound` call produces the identical store
— markers and `lastValue` are recorded regardless of delivery outcome,
which the source guarantees by catching every error inside `sendNtfy` —
and the identical dispatch attempts (same tiers, same values), with at
most one attempt per tier (no retry). -/
theorem dispatch_failure_isolation (ok ok' : Tier → Bool) (now v : Int) (id : α)
    (store : List (α × AlertSt)) :
    (processHeartsFound ok now v id store).1 = (processHeartsFound ok' now v id store).1
    ∧ (processHeartsFound ok now v id store).2.map (fun r => (r.tier, r.value))
        = (processHeartsFound ok' now v id store).2.map (fun r => (r.tier, r.value))
    ∧ ∀ t : Tier, ((processHeartsFound ok now v id store).2.filter
        (fun r => decide (r.tier = t))).length ≤ 1 := by
  by_cases hc : ((mapGet store id).getD defaultAlertSt).lastValue = some v
  · simp [processHeartsFound, hc]
  · refine ⟨by simp [processHeartsFound, hc], ?_, ?_⟩
    · by_cases hP : firesPrimary v ((mapGet store id).getD defaultAlertSt) <;>
        by_cases hS : firesSecondary v ((mapGet store id).getD defaultAlertSt) <;>
        simp [processHeartsFound, hc, sendsFor, hP, hS]
    · intro t
      by_cases hP : firesPrimary v ((mapGet store id).getD defaultAlertSt) <;>
        by_cases hS : firesSecondary v ((mapGet store id).getD defaultAlertSt) <;>
        cases t <;>
        simp [processHeartsFound, hc, sendsFor, hP, hS]

/-! ## Claim C1: monotonic firing -/

theorem keysOf_tail {β : Type} (l : List (α × β)) : keysOf l.tail = (keysOf l).tail := by
  cases l <;> rfl

theorem nodup_mapSet {β : Type} (store : List (α × β)) (k : α) (v : β)
    (hn : (keysOf store).Nodup) : (keysOf (mapSet store k v)).Nodup := by
  cases hm : mapGet store k with
  | some st =>
    rw [keysOf_mapSet_of_isSome v (by rw [hm]; rfl)]
    exact hn
  | none =>
    have hk : k ∉ keysOf store := (mapGet_eq_none_iff store k).mp hm
    rw [mapSet_of_none v hm]
    rw [show keysOf (store ++ [(k, v)]) = keysOf store ++ [k] from by simp [keysOf]]
    rw [List.nodup_append]
    refine ⟨hn, List.nodup_singleton k, ?_⟩
    intro a ha hb
    rw [List.mem_singleton] at hb
    subst hb
    exact hk ha

/-- A `firedB` fact unpacked into its stored state and non-zero marker. -/
theorem fired_exists (t : Tier) (store : List (α × AlertSt)) (id : α)
    (hf : firedB t store id = true) :
    ∃ st, mapGet store id = some st ∧ ¬ markerOf t st = 0 := by
  rw [firedB] at hf
  cases hmg : mapGet store id with
  | none =>
    rw [hmg] at hf
    exact absurd hf (by simp)
  | some st =>
    rw [hmg] at hf
    exact ⟨st, rfl, of_decide_eq_true hf⟩

/-- `updMarkers` never touches a marker that is already non-zero: the
guards `!state.primaryAt` / `!state.secondaryAt` fail. -/
theorem markerOf_updMarkers (now v : Int) (st : AlertSt) (t : Tier)
    (h : ¬ markerOf t st = 0) : markerOf t (updMarkers now v st) = markerOf t st := by
  cases t with
  | primary =>
    simp only [markerOf] at h ⊢
    simp [updMarkers, firesPrimary, h]
  | secondary =>
    simp only [markerOf] at h ⊢
    simp [updMarkers, firesSecondary, h]

/-- One `processHeartsFound` call never dispatches an already-fired tier
for its own message id. -/
theorem step_no_refire (ok : Tier → Bool) (now v : Int) (id : α) (t : Tier)
    (store : List (α × AlertSt)) (hf : firedB t store id = true) :
    ∀ r ∈ (processHeartsFound ok now v id store).2, r.tier ≠ t := by
  obtain ⟨st, hmg, hmark⟩ := fired_exists t store id hf
  by_cases hearly : ((mapGet store id).getD defaultAlertSt).lastValue = some v
  · simp [processHeartsFound, hearly]
  · have hres : (processHeartsFound ok now v id store).2
        = sendsFor ok v ((mapGet store id).getD defaultAlertSt) := by
      simp [processHeartsFound, hearly]
    rw [hres, hmg]
    simp only [Option.getD_some]
    intro r hr
    cases t with
    | primary =>
      simp only [markerOf] at hmark
      have hp : firesPrimary v st = false := by simp [firesPrimary, hmark]
      by_cases hS : firesSecondary v st
      · simp [sendsFor, hp, hS] at hr
        subst hr
        simp
      · simp [sendsFor, hp, hS] at hr
    | secondary =>
      simp only [markerOf] at hmark
      have hs : firesSecondary v st = false := by simp [firesSecondary, hmark]
      by_cases hP : firesPrimary v st
      · simp [sendsFor, hs, hP] at hr
        subst hr
        simp
      · simp [sendsFor, hs, hP] at hr

/-- One `processHeartsFound` call keeps the store's keys unique. -/
theorem step_nodup (ok : Tier → Bool) (now v : Int) (id : α)
    (store : List (α × AlertSt)) (hn : (keysOf store).Nodup) :
    (keysOf (processHeartsFound ok now v id store).1).Nodup := by
  by_cases hearly : ((mapGet store id).getD defaultAlertSt).lastValue = some v
  · simpa [processHeartsFound, hearly] using hn
  · have hres : (processHeartsFound ok now v id store).1
        = capDelete ALERT_CAP
            (mapSet store id (updMarkers now v ((mapGet store id).getD defaultAlertSt))) := by
      simp [processHeartsFound, hearly]
    rw [hres, capDelete]
    have h1 := nodup_mapSet store id (updMarkers now v ((mapGet store id).getD defaultAlertSt)) hn
    split
    · rw [keysOf_tail]
      exact h1.sublist (List.tail_sublist _)
    · exact h1

/-- One `processHeartsFound` call never clears a fired marker of an
entry that survives it (only eviction can delete the entry). -/
theorem step_marker_mono (ok : Tier → Bool) (now v : Int) (id' id : α) (t : Tier)
    (store : List (α × AlertSt)) (hn : (keysOf store).Nodup)
    (hf : firedB t store id = true)
    (hmem : id ∈ keysOf (processHeartsFound ok now v id' store).1) :
    firedB t (processHeartsFound ok now v id' store).1 id = true := by
  obtain ⟨st, hmg, hmark⟩ := fired_exists t store id hf
  by_cases hearly : ((mapGet store id').getD defaultAlertSt).lastValue = some v
  · have hres : (processHeartsFound ok now v id' store).1 = store := by
      simp [processHeartsFound, hearly]
    rw [hres]
    exact hf
  · have hres : (processHeartsFound ok now v id' store).1
        = capDelete ALERT_CAP
            (mapSet store id' (updMarkers now v ((mapGet store id').getD defaultAlertSt))) := by
      simp [processHeartsFound, hearly]
    rw [hres] at hmem ⊢
    have hn1 : (keysOf (mapSet store id'
        (updMarkers now v ((mapGet store id').getD defaultAlertSt)))).Nodup :=
      nodup_mapSet store id' _ hn
    obtain ⟨newst, hget1, hmark1⟩ :
        ∃ newst, mapGet (mapSet store id'
            (updMarkers now v ((mapGet store id').getD defaultAlertSt))) id = some newst
          ∧ ¬ markerOf t newst = 0 := by
      by_cases hid : id' = id
      · subst hid
        refine ⟨updMarkers now v st, ?_, ?_⟩
        · rw [hmg]
          simp only [Option.getD_some]
          exact mapGet_mapSet_self _ _ _
        · rw [markerOf_updMarkers now v st t hmark]
          exact hmark
      · refine ⟨st, ?_, hmark⟩
        rw [mapGet_mapSet_ne _ _ _ _ (fun he => hid he.symm)]
        exact hmg
    by_cases hcap : ALERT_CAP < (mapSet store id'
        (updMarkers now v ((mapGet store id').getD defaultAlertSt))).length
    · rw [capDelete, if_pos hcap] at hmem ⊢
      rw [firedB, mapGet_tail_of_mem hn1 hmem, hget1]
      simpa using hmark1
    · rw [capDelete, if_neg hcap] at hmem ⊢
      rw [firedB, hget1]
      simpa using hmark1

/-- **C1** (amended): in the timestamp-marker variant
(src/unnamed/part_002), once a tier has fired for a message id, no
sequence of later `processHeartsFound` calls — for any values and ids —
dispatches that tier for that id again, and the marker stays set, as
long as the entry is not evicted (expressed as: the id stays among the
store's keys throughout the run). -/
theorem monotonic_firing_timestamps (ok : Tier → Bool)
    (calls : List (Int × Int × α)) (store : List (α × AlertSt)) (id : α) (t : Tier)
    (hn : (keysOf store).Nodup) (hf : firedB t store id = true)
    (hkeys : ∀ n : Nat, id ∈ keysOf (runHF ok (calls.take n) store).1) :
    (id, t) ∉ (runHF ok calls store).2
      ∧ firedB t (runHF ok calls store).1 id = true := by
  induction calls generalizing store with
  | nil => exact ⟨by simp [runHF], by simpa [runHF] using hf⟩
  | cons c rest ih =>
    obtain ⟨now, v, id'⟩ := c
    have h1 : id ∈ keysOf (processHeartsFound ok now v id' store).1 := by
      have h := hkeys 1
      simpa [runHF, List.take_succ_cons] using h
    have hf' := step_marker_mono ok now v id' id t store hn hf h1
    have hn' := step_nodup ok now v id' store hn
    have hkeys' : ∀ n : Nat,
        id ∈ keysOf (runHF ok (rest.take n) (processHeartsFound ok now v id' store).1).1 := by
      intro n
      have h := hkeys (n + 1)
      simpa [runHF, List.take_succ_cons] using h
    obtain ⟨ihm, ihf⟩ := ih (processHeartsFound ok now v id' store).1 hn' hf' hkeys'
    constructor
    · simp only [runHF]
      intro hmem
      rcases List.mem_append.mp hmem with hL | hR
      · rcases List.mem_map.mp hL with ⟨r, hr, heq⟩
        rw [Prod.mk.injEq] at heq
        have hfid : firedB t store id' = true := by
          rw [heq.1]
          exact hf
        exact (step_no_refire ok now v id' t store hfid r hr) heq.2
      · exact ihm hR
    · simpa [runHF] using ihf

/-- Witness for C1's amended theorem: primary already fired (timestamp
5) for id 0; a later call with a different in-band value does not
re-dispatch primary. -/
theorem monotonic_firing_timestamps_witness :
    (keysOf [((0 : Nat), (⟨5, 0, some 700⟩ : AlertSt))]).Nodup
    ∧ firedB Tier.primary [((0 : Nat), (⟨5, 0, some 700⟩ : AlertSt))] 0 = true
    ∧ (∀ n : Nat, 0 ∈ keysOf (runHF (fun _ => true)
        ([((10 : Int), (650 : Int), (0 : Nat))].take n)
        [((0 : Nat), (⟨5, 0, some 700⟩ : AlertSt))]).1)
    ∧ ((0 : Nat), Tier.primary) ∉ (runHF (fun _ => true)
        [((10 : Int), (650 : Int), (0 : Nat))]
        [((0 : Nat), (⟨5, 0, some 700⟩ : AlertSt))]).2 := by
  have hkeys : ∀ n : Nat, 0 ∈ keysOf (runHF (fun _ => true)
      ([((10 : Int), (650 : Int), (0 : Nat))].take n)
      [((0 : Nat), (⟨5, 0, some 700⟩ : AlertSt))]).1 := by
    intro n
    match n with
    | 0 => decide
    | Nat.succ m =>
      rw [List.take_succ_cons, List.take_nil]
      decide
  exact ⟨by decide, by decide, hkeys,
    (monotonic_firing_timestamps (fun _ => true) _ _ 0 Tier.primary
      (by decide) (by decide) hkeys).1⟩

/-- **C1 counterexample** on the cited two-map variant (src/monitor.js
lines 345-381): the primary tier fires for id 0 at value 350 and fires
*again* for the same id at value 400, because that variant suppresses
only exact value repeats — firing is not once-per-message there. -/
theorem tier_refires_in_twomap_variant :
    Tier.primary ∈ (processHeartsFoundTwoMap 350 (0 : Nat) ⟨[], []⟩).2
    ∧ Tier.primary ∈ (processHeartsFoundTwoMap 400 0
        (processHeartsFoundTwoMap 350 (0 : Nat) ⟨[], []⟩).1).2 := by
  decide

/-! ## Claim C4: bounded FIFO store -/

/-- Keys along a run over fresh ids: the store keeps the last
`ALERT_CAP` inserted keys in insertion order, dropping oldest-first. -/
theorem runHF_keys (ok : Tier → Bool) :
    ∀ (calls : List (Int × Int × α)) (store : List (α × AlertSt)),
      (keysOf store ++ calls.map (fun c => c.2.2)).Nodup →
      store.length ≤ ALERT_CAP →
      keysOf (runHF ok calls store).1
        = (keysOf store ++ calls.map (fun c => c.2.2)).drop
            (store.length + calls.length - ALERT_CAP) := by
  intro calls
  induction calls with
  | nil =>
    intro store hn hlen
    have h0 : store.length + ([] : List (Int × Int × α)).length - ALERT_CAP = 0 := by
      simp only [List.length_nil]
      omega
    have hkl : (keysOf store).length = store.length := List.length_map _ _
    simp only [runHF, List.map_nil, List.append_nil, h0, List.drop_zero]
  | cons c rest ih =>
    intro store hn hlen
    obtain ⟨now, v, id⟩ := c
    have hn' : (keysOf store ++ id :: rest.map (fun c => c.2.2)).Nodup := by
      simpa using hn
    have hid : id ∉ keysOf store := by
      intro hmem
      rw [List.nodup_append] at hn'
      exact hn'.2.2 hmem (by simp)
    have hm : mapGet store id = none := (mapGet_eq_none_iff store id).mpr hid
    have hearly : ¬ (((mapGet store id).getD defaultAlertSt).lastValue = some v) := by
      rw [hm]
      simp [defaultAlertSt]
    have hstep : (processHeartsFound ok now v id store).1
        = capDelete ALERT_CAP
            (store ++ [(id, updMarkers now v ((mapGet store id).getD defaultAlertSt))]) := by
      simp [processHeartsFound, hearly, mapSet_of_none _ hm]
    have hrun : keysOf (runHF ok ((now, v, id) :: rest) store).1
        = keysOf (runHF ok rest (processHeartsFound ok now v id store).1).1 := by
      simp [runHF]
    set newst := updMarkers now v ((mapGet store id).getD defaultAlertSt) with hnewst
    have hkeys1 : keysOf (store ++ [(id, newst)]) = keysOf store ++ [id] := by
      simp [keysOf]
    rw [hrun, hstep]
    by_cases hcap : store.length < ALERT_CAP
    · have hnoev : capDelete ALERT_CAP (store ++ [(id, newst)])
          = store ++ [(id, newst)] := by
        rw [capDelete, if_neg]
        simp only [List.length_append, List.length_cons, List.length_nil]
        omega
      rw [hnoev]
      have hn1 : (keysOf (store ++ [(id, newst)]) ++ rest.map (fun c => c.2.2)).Nodup := by
        rw [hkeys1, List.append_assoc, List.singleton_append]
        exact hn'
      have hlen1 : (store ++ [(id, newst)]).length ≤ ALERT_CAP := by
        simp only [List.length_append, List.length_cons, List.length_nil]
        omega
      rw [ih (store ++ [(id, newst)]) hn1 hlen1, hkeys1]
      rw [List.append_assoc, List.singleton_append]
      have harith : (store ++ [(id, newst)]).length + rest.length - ALERT_CAP
          = store.length + ((now, v, id) :: rest).length - ALERT_CAP := by
        simp only [List.length_append, List.length_cons, List.length_nil]
        omega
      rw [harith]
      simp
    · have hLeq : store.length = ALERT_CAP := by omega
      cases store with
      | nil => simp [ALERT_CAP] at hLeq
      | cons q t =>
        have htlen : t.length + 1 = ALERT_CAP := by
          simpa using hLeq
        have hev : capDelete ALERT_CAP ((q :: t) ++ [(id, newst)])
            = t ++ [(id, newst)] := by
          have hc : ALERT_CAP < ((q :: t) ++ [(id, newst)]).length := by
            simp only [List.cons_append, List.length_cons, List.length_append,
              List.length_nil]
            omega
          rw [capDelete, if_pos hc]
          rfl
        rw [hev]
        have hkeys2 : keysOf (t ++ [(id, newst)]) = keysOf t ++ [id] := by
          simp [keysOf]
        have hnq : (keysOf (q :: t) ++ id :: rest.map (fun c => c.2.2)).Nodup := hn'
        have hnt : (keysOf t ++ id :: rest.map (fun c => c.2.2)).Nodup := by
          have : (q.1 :: (keysOf t ++ id :: rest.map (fun c => c.2.2))).Nodup := by
            simpa [keysOf] using hnq
          exact this.of_cons
        have hn2 : (keysOf (t ++ [(id, newst)]) ++ rest.map (fun c => c.2.2)).Nodup := by
          rw [hkeys2, List.append_assoc, List.singleton_append]
          exact hnt
        have hlen2 : (t ++ [(id, newst)]).length ≤ ALERT_CAP := by
          simp only [List.length_append, List.length_cons, List.length_nil]
          omega
        rw [ih (t ++ [(id, newst)]) hn2 hlen2, hkeys2]
        rw [List.append_assoc, List.singleton_append]
        have harith2 : (t ++ [(id, newst)]).length + rest.length - ALERT_CAP
            = rest.length := by
          simp only [List.length_append, List.length_cons, List.length_nil]
          omega
        have harith3 : (q :: t).length + ((now, v, id) :: rest).length - ALERT_CAP
            = rest.length + 1 := by
          simp only [List.length_cons]
          omega
        rw [harith2, harith3]
        have hshape : keysOf (q :: t) ++ ((now, v, id) :: rest).map (fun c => c.2.2)
            = q.1 :: (keysOf t ++ id :: rest.map (fun c => c.2.2)) := by
          simp [keysOf]
        rw [hshape, List.drop_succ_cons]

/-- **C4**: the timestamp variant's store never exceeds `ALERT_CAP =
300` entries after a call on an in-capacity store, and inserting
`ALERT_CAP + 1` distinct message ids into an empty store evicts exactly
one entry — the first-inserted id — leaving the remaining ids in
insertion (FIFO) order. -/
theorem bounded_fifo_store :
    (∀ (ok : Tier → Bool) (now v : Int) (id : α) (store : List (α × AlertSt)),
        store.length ≤ ALERT_CAP →
        ((processHeartsFound ok now v id store).1).length ≤ ALERT_CAP)
    ∧ (∀ (ok : Tier → Bool) (calls : List (Int × Int × α)),
        (calls.map (fun c => c.2.2)).Nodup → calls.length = ALERT_CAP + 1 →
        keysOf (runHF ok calls ([] : List (α × AlertSt))).1
          = (calls.map (fun c => c.2.2)).drop 1) := by
  constructor
  · intro ok now v id store hlen
    by_cases hearly : ((mapGet store id).getD defaultAlertSt).lastValue = some v
    · simpa [processHeartsFound, hearly] using hlen
    · have hres : (processHeartsFound ok now v id store).1
          = capDelete ALERT_CAP
              (mapSet store id (updMarkers now v ((mapGet store id).getD defaultAlertSt))) := by
        simp [processHeartsFound, hearly]
      rw [hres]
      have hlm : (mapSet store id
          (updMarkers now v ((mapGet store id).getD defaultAlertSt))).length
          ≤ store.length + 1 := by
        cases hm : mapGet store id with
        | some st =>
          rw [length_mapSet_of_isSome _ (by rw [hm]; rfl)]
          omega
        | none =>
          rw [mapSet_of_none _ hm]
          simp
      rw [capDelete]
      split
      · rw [List.length_tail]
        omega
      · omega
  · intro ok calls hnodup hlen
    have h := runHF_keys ok calls [] (by simpa [keysOf] using hnodup) (by simp)
    have h1 : List.length ([] : List (Nat × AlertSt)) + calls.length - ALERT_CAP = 1 := by
      simp [hlen]
    simpa [keysOf, hlen] using h

/-- Witness for C4: the empty store, and 301 distinct numeric ids. -/
theorem bounded_fifo_store_witness :
    ([] : List (Nat × AlertSt)).length ≤ ALERT_CAP
    ∧ ((processHeartsFound (fun _ => true) 1 5 (0 : Nat)
        ([] : List (Nat × AlertSt))).1).length ≤ ALERT_CAP
    ∧ (((List.range (ALERT_CAP + 1)).map (fun n => ((1 : Int), (700 : Int), n))).map
        (fun c => c.2.2)).Nodup
    ∧ ((List.range (ALERT_CAP + 1)).map
        (fun n => ((1 : Int), (700 : Int), n))).length = ALERT_CAP + 1
    ∧ keysOf (runHF (fun _ => true)
        ((List.range (ALERT_CAP + 1)).map (fun n => ((1 : Int), (700 : Int), n)))
        ([] : List (Nat × AlertSt))).1
      = (((List.range (ALERT_CAP + 1)).map (fun n => ((1 : Int), (700 : Int), n))).map
          (fun c => c.2.2)).drop 1 := by
  have h1 : (((List.range (ALERT_CAP + 1)).map (fun n => ((1 : Int), (700 : Int), n))).map
      (fun c => c.2.2)).Nodup := by
    rw [List.map_map]
    show (List.map (fun n => n) (List.range (ALERT_CAP + 1))).Nodup
    rw [show (fun (n : Nat) => n) = id from rfl, List.map_id]
    exact List.nodup_range _
  have h2 : ((List.range (ALERT_CAP + 1)).map
      (fun n => ((1 : Int), (700 : Int), n))).length = ALERT_CAP + 1 := by
    simp
  exact ⟨by decide, bounded_fifo_store.1 (fun _ => true) 1 5 0 [] (by decide), h1, h2,
    bounded_fifo_store.2 (fun _ => true) _ h1 h2⟩

/-- Witness for C9: a freshly created, never-fired entry is swept. -/
theorem sweep_deletes_never_fired_witness :
    ((0 : Nat), (⟨0, 0, some 50⟩ : AlertSt)) ∈ [((0 : Nat), (⟨0, 0, some 50⟩ : AlertSt))]
    ∧ (15 : Int) * 60000 < 1000000
    ∧ ((0 : Nat), (⟨0, 0, some 50⟩ : AlertSt))
        ∉ sweepStates 1000000 [((0 : Nat), (⟨0, 0, some 50⟩ : AlertSt))] :=
  ⟨by decide, by decide,
    sweep_deletes_never_fired 1000000 _ _ (by decide) rfl rfl (by decide)⟩

/-! ## Claim C3: the multi-tier overlap scenario -/

/-- **C3 counterexample** on the cited two-map variant, whose tiers are
exactly T1 = (>300) and T2 = (100..600): starting Unseen, after
`evaluate(id, 250)` (which fires only T2), the call `evaluate(id, 350)`
does *not* fire only T1, and the following `evaluate(id, 250)` does
*not* fire nothing — T2 re-fires both times because its stored value
differs, contradicting the claimed scenario. -/
theorem multitier_scenario_cex :
    ¬ ((processHeartsFoundTwoMap 250 (0 : Nat) ⟨[], []⟩).2 = [Tier.secondary]
      ∧ (processHeartsFoundTwoMap 350 0
          (processHeartsFoundTwoMap 250 (0 : Nat) ⟨[], []⟩).1).2 = [Tier.primary]
      ∧ (processHeartsFoundTwoMap 250 0
          (processHeartsFoundTwoMap 350 0
            (processHeartsFoundTwoMap 250 (0 : Nat) ⟨[], []⟩).1).1).2 = []) := by
  decide

/-- **C3** (amended): what the cited code actually does on the scenario:
`evaluate(id, 250)` fires only T2; `evaluate(id, 350)` fires T1 *and
also* T2 (T2's stored value 250 ≠ 350); the final `evaluate(id, 250)`
fires T2 once more (stored value 350 ≠ 250), not nothing. -/
theorem multitier_scenario :
    (processHeartsFoundTwoMap 250 (0 : Nat) ⟨[], []⟩).2 = [Tier.secondary]
    ∧ (processHeartsFoundTwoMap 350 0
        (processHeartsFoundTwoMap 250 (0 : Nat) ⟨[], []⟩).1).2
      = [Tier.primary, Tier.secondary]
    ∧ (processHeartsFoundTwoMap 250 0
        (processHeartsFoundTwoMap 350 0
          (processHeartsFoundTwoMap 250 (0 : Nat) ⟨[], []⟩).1).1).2
      = [Tier.secondary] := by
  decide

/-! ## Claim C8: minimum inter-dispatch gap -/

/-- Sequentially-issued `sendNtfy` calls do respect the gap: if the
second call runs its check after the first completed (`now2 ≥` the first
completion, clock monotone), its post starts at least `NTFY_MIN_GAP_MS`
after the first post completed, whatever the audiences are — the
limiter state is one global `lastNtfySendAt` with no per-audience
component. -/
theorem sendNtfySeq_gap (last now1 dur1 now2 dur2 : Int)
    (hseq : (sendNtfySeq last now1 dur1).2.endAt ≤ now2) :
    (sendNtfySeq last now1 dur1).2.endAt + NTFY_MIN_GAP_MS
      ≤ (sendNtfySeq (sendNtfySeq last now1 dur1).1 now2 dur2).2.startAt := by
  simp only [sendNtfySeq, sendStartTime, NTFY_MIN_GAP_MS] at *
  split <;> omega

/-- Witness for the sequential-gap statement at concrete times. -/
theorem sendNtfySeq_gap_witness :
    (sendNtfySeq 0 100000 100).2.endAt ≤ 100200
    ∧ (sendNtfySeq 0 100000 100).2.endAt + NTFY_MIN_GAP_MS
        ≤ (sendNtfySeq (sendNtfySeq 0 100000 100).1 100200 100).2.startAt :=
  ⟨by decide, sendNtfySeq_gap 0 100000 100 100200 100 (by decide)⟩

/-- **C8, evaluated at the failing schedule**: with `lastNtfySendAt = 0`,
call A checks at t = 100000 and posts (duration 100 ms, completing at
100100); call B checks at t = 100050 — after A started and before A
completed, so it still reads `lastNtfySendAt = 0` (A writes it only
after its awaited post resolves) — and also posts immediately.  B's send
starts 50 ms after A's, before A even completes: the claimed global
1500 ms gap between consecutive sends does not hold for overlapping
calls, contradicting the source's own comment
`// >= 1.5s between any ntfy sends`. -/
theorem overlapped_sends_violate_gap :
    (100000 : Int) ≤ 100050
    ∧ (100050 : Int) ≤ (sendNtfyOverlapped 0 100000 100 100050 100).1.endAt
    ∧ (sendNtfyOverlapped 0 100000 100 100050 100).2.startAt
        < (sendNtfyOverlapped 0 100000 100 100050 100).1.endAt + NTFY_MIN_GAP_MS
    ∧ (sendNtfyOverlapped 0 100000 100 100050 100).2.startAt
        - (sendNtfyOverlapped 0 100000 100 100050 100).1.startAt = 50 := by
  decide

end HeartMonitor
